import Mathlib

/-!
Verification of the `enumn` derive macro (src/lib.rs): a compile-time code
generator that, given an enum declaration, emits a function `n` converting a
raw integer back into the matching variant.

The Rust source is shallowly embedded below: the syntactic input
(`DeriveInput`, attributes parsed as `syn` metadata, variants with field
shapes and optional explicit discriminants) and the `derive` entry point are
translated directly from `src/lib.rs`.  The host compiler's discriminant
assignment rule and the run-time semantics of the emitted `match` are
modelled from the spec, since the generator delegates them to the host
compiler (it re-emits `Ident::Variant as Repr` constants and a literal
`match`).
-/

namespace Enumn

/-- `syn::Fields`: the field shape of an enum variant. -/
inductive Fields where
  | unit
  | named
  | unnamed
deriving DecidableEq

/-- An enum variant as the generator sees it: its identifier, its field
shape, and its optional explicit discriminant.  The generator never
evaluates the discriminant expression itself; we carry the integer value
the host compiler would evaluate it to. -/
structure Variant where
  ident : String
  fields : Fields
  discriminant : Option Int
deriving DecidableEq

mutual

/-- `syn::Meta` (syn 0.15): a parsed attribute body. -/
inductive Meta where
  | word (ident : String)
  | list (ident : String) (nested : List NestedMeta)
  | nameValue (ident : String) (lit : String)

/-- `syn::NestedMeta`: one element of a `Meta::List` payload. -/
inductive NestedMeta where
  | meta (m : Meta)
  | literal (lit : String)

end

/-- An attribute on the enum declaration.  `parse_meta` is the result of
`attr.parse_meta()` (`none` models a parse failure), and `tts` is the raw
token stream after the attribute path (for `#[repr(u8)]` it is `(u8)`),
which is what the source splices into the generated signature. -/
structure Attribute where
  parse_meta : Option Meta
  tts : String

/-- `syn::Data`: the payload of a `DeriveInput`. -/
inductive Data where
  | enum (variants : List Variant)
  | struct
  | union

/-- `syn::DeriveInput`: the macro input. -/
structure DeriveInput where
  ident : String
  attrs : List Attribute
  data : Data

/-- A compile diagnostic, as produced by `Error::new(span, msg)` followed by
`to_compile_error`.  The span is identified by the ident it points at. -/
structure Diagnostic where
  span : String
  message : String
deriving DecidableEq

/-- The shape-validation loop of `derive` (src/lib.rs lines 115-124): walk
the variants in order and return the diagnostic for the first variant whose
fields are not `Fields::Unit`, or `none` if all variants are unit. -/
def validateShapes : List Variant → Option Diagnostic
  | [] => none
  | v :: rest =>
    match v.fields with
    | Fields.unit => validateShapes rest
    | Fields.named => some ⟨v.ident, "enumn: variant with data is not supported"⟩
    | Fields.unnamed => some ⟨v.ident, "enumn: variant with data is not supported"⟩

/-- The width tags recognized by the `match word.to_string().as_str()` in
src/lib.rs lines 133-134, in source order. -/
def recognizedTags : List String :=
  ["u8", "u16", "u32", "u64", "u128", "usize", "i8", "i16", "i32", "i64", "i128", "isize"]

/-- Whether a payload word is one of the recognized width tags
(src/lib.rs lines 132-138). -/
def isRecognizedTag (s : String) : Bool :=
  s == "u8" || s == "u16" || s == "u32" || s == "u64" || s == "u128" || s == "usize"
    || s == "i8" || s == "i16" || s == "i32" || s == "i64" || s == "i128" || s == "isize"

/-- One iteration of the repr-scanning loop (src/lib.rs lines 128-142):
if the attribute parses as `Meta::List` with ident `repr` and the first
nested element is `NestedMeta::Meta(Meta::Word(word))` with a recognized
word, the running result becomes `some attr.tts`; otherwise it is kept. -/
def reprStep (repr : Option String) (attr : Attribute) : Option String :=
  match attr.parse_meta with
  | some (Meta.list ident nested) =>
    if ident == "repr" then
      match nested.head? with
      | some (NestedMeta.meta (Meta.word word)) =>
        if isRecognizedTag word then some attr.tts else repr
      | _ => repr
    else repr
  | _ => repr

/-- The whole repr-scanning loop: `let mut repr = None; for attr in
input.attrs { ... }` (src/lib.rs lines 127-142). -/
def resolveRepr (attrs : List Attribute) : Option String :=
  attrs.foldl reprStep none

/-- The signature of the generated function `n`
(src/lib.rs lines 144-162). -/
inductive Signature where
  | fixed (repr : String)
  | generic
deriving DecidableEq

/-- The expression the generated body matches on: `value` itself in fixed
mode, or `<REPR as Into<i64>>::into(value)` in generic mode. -/
inductive ValueExpr where
  | direct
  | intoI64
deriving DecidableEq

/-- The generated `impl` fragment (src/lib.rs lines 178-191): the enum
ident, the signature of `n`, the scrutinee expression, the repr type used
for the discriminant constants, and the variant idents that furnish the
`declare_discriminants` / `match_discriminants` arms in declaration order. -/
structure GeneratedFunction where
  enumIdent : String
  signature : Signature
  value : ValueExpr
  reprForConstants : String
  variantIdents : List String
deriving DecidableEq

/-- The outcome of one macro invocation: a `panic!` (non-enum input), a
compile error (variant with data), or the generated token stream. -/
inductive DeriveOutput where
  | panicked (message : String)
  | compileError (d : Diagnostic)
  | tokens (f : GeneratedFunction)
deriving DecidableEq

/-- The `derive` entry point (src/lib.rs lines 106-192), stage by stage:
panic on non-enum input; return the first shape diagnostic if any variant
carries data; scan the attributes for a repr; then emit the fragment whose
signature, scrutinee and constant type depend on the resolved repr. -/
def derive (input : DeriveInput) : DeriveOutput :=
  match input.data with
  | Data.struct => DeriveOutput.panicked "input must be an enum"
  | Data.union => DeriveOutput.panicked "input must be an enum"
  | Data.enum variants =>
    match validateShapes variants with
    | some err => DeriveOutput.compileError err
    | none =>
      match resolveRepr input.attrs with
      | some repr =>
        DeriveOutput.tokens
          { enumIdent := input.ident
            signature := Signature.fixed repr
            value := ValueExpr.direct
            reprForConstants := repr
            variantIdents := variants.map Variant.ident }
      | none =>
        DeriveOutput.tokens
          { enumIdent := input.ident
            signature := Signature.generic
            value := ValueExpr.intoI64
            reprForConstants := "i64"
            variantIdents := variants.map Variant.ident }

/-- Modelled from the spec: the host compiler's sequential discriminant
assignment rule, which the generator delegates to by re-emitting
`Ident::Variant as Repr`.  A variant with an explicit discriminant gets
that value; one without gets the running counter; either way the counter
becomes the assigned value's successor. -/
def resolveFrom (counter : Int) : List Variant → List (String × Int)
  | [] => []
  | v :: rest =>
    match v.discriminant with
    | some e => (v.ident, e) :: resolveFrom (e + 1) rest
    | none => (v.ident, counter) :: resolveFrom (counter + 1) rest

/-- Modelled from the spec: discriminant resolution for a whole declaration,
with the counter initialized to zero. -/
def resolveDiscriminants (variants : List Variant) : List (String × Int) :=
  resolveFrom 0 variants

/-- First-match lookup of a value among the `(variant, discriminant)` arms,
falling through to `none`: the semantics of the emitted `match`. -/
def findMatch : List (String × Int) → Int → Option String
  | [], _ => none
  | (name, d) :: rest, value => if value = d then some name else findMatch rest value

/-- Modelled from the spec: the run-time behavior of the generated function
`n` — compare the (already converted) input value against each variant's
resolved discriminant in declaration order, with a catch-all `_ => None`
(src/lib.rs lines 171-191). -/
def generatedN (variants : List Variant) (value : Int) : Option String :=
  findMatch (resolveDiscriminants variants) value

/-! ### Concrete declarations used as witnesses -/

/-- The `Letter`-style scenario from the spec: variants `A, B = 66, C`. -/
def letterVariants : List Variant :=
  [⟨"A", Fields.unit, none⟩, ⟨"B", Fields.unit, some 66⟩, ⟨"C", Fields.unit, none⟩]

/-- The `Letter` declaration itself: no attributes. -/
def letterInput : DeriveInput :=
  ⟨"Letter", [], Data.enum letterVariants⟩

/-- A `#[repr(u8)]` attribute as syn parses it. -/
def reprU8Attr : Attribute :=
  ⟨some (Meta.list "repr" [NestedMeta.meta (Meta.word "u8")]), "(u8)"⟩

/-- A `#[repr(u16)]` attribute as syn parses it. -/
def reprU16Attr : Attribute :=
  ⟨some (Meta.list "repr" [NestedMeta.meta (Meta.word "u16")]), "(u16)"⟩

/-- A `#[repr(C, u8)]` attribute: the recognized tag is not the first
payload element. -/
def reprCU8Attr : Attribute :=
  ⟨some (Meta.list "repr" [NestedMeta.meta (Meta.word "C"), NestedMeta.meta (Meta.word "u8")]),
    "(C, u8)"⟩

/-! ### Helper lemmas -/

theorem findMatch_eq_none (arms : List (String × Int)) (value : Int)
    (h : ∀ p ∈ arms, p.2 ≠ value) : findMatch arms value = none := by
  induction arms with
  | nil => rfl
  | cons p rest ih =>
    obtain ⟨name, d⟩ := p
    have hd : d ≠ value := h ⟨name, d⟩ (List.mem_cons_self _ _)
    have hne : ¬(value = d) := fun hv => hd hv.symm
    simp only [findMatch, if_neg hne]
    exact ih fun q hq => h q (List.mem_cons_of_mem _ hq)

theorem findMatch_of_mem (arms : List (String × Int)) (name : String) (d : Int)
    (hnodup : (arms.map Prod.snd).Nodup) (hmem : (name, d) ∈ arms) :
    findMatch arms d = some name := by
  induction arms with
  | nil => cases hmem
  | cons p rest ih =>
    obtain ⟨n0, d0⟩ := p
    simp only [List.map_cons, List.nodup_cons] at hnodup
    rcases List.mem_cons.mp hmem with heq | hrest
    · cases heq
      simp [findMatch]
    · have hd : d ≠ d0 := by
        intro h
        exact hnodup.1 (h ▸ List.mem_map_of_mem Prod.snd hrest)
      simp only [findMatch, if_neg hd]
      exact ih hnodup.2 hrest

theorem resolveFrom_length (counter : Int) (variants : List Variant) :
    (resolveFrom counter variants).length = variants.length := by
  induction variants generalizing counter with
  | nil => rfl
  | cons v rest ih =>
    cases hd : v.discriminant <;> simp [resolveFrom, hd, ih]

theorem resolveFrom_get?_explicit (variants : List Variant) (counter : Int) (i : ℕ)
    (v : Variant) (e : Int) (hv : variants.get? i = some v)
    (hdisc : v.discriminant = some e) :
    (resolveFrom counter variants).get? i = some (v.ident, e) := by
  induction variants generalizing counter i with
  | nil => cases hv
  | cons w rest ih =>
    cases i with
    | zero =>
      cases hv
      simp [resolveFrom, hdisc]
    | succ j =>
      cases hd : w.discriminant <;>
        simpa [resolveFrom, hd] using ih _ j hv

theorem resolveFrom_get?_none_succ (variants : List Variant) (counter : Int) (i : ℕ)
    (v : Variant) (p q : String × Int)
    (hv : variants.get? (i + 1) = some v) (hdisc : v.discriminant = none)
    (hp : (resolveFrom counter variants).get? i = some p)
    (hq : (resolveFrom counter variants).get? (i + 1) = some q) :
    q.2 = p.2 + 1 := by
  induction variants generalizing counter i with
  | nil => cases hv
  | cons w rest ih =>
    cases i with
    | zero =>
      have hv0 : rest.get? 0 = some v := hv
      cases rest with
      | nil => cases hv0
      | cons x rest2 =>
        cases hv0
        cases hd : w.discriminant with
        | none =>
          simp only [resolveFrom, hd] at hp hq
          cases hp
          simp only [List.get?, resolveFrom, hdisc] at hq
          cases hq
          rfl
        | some e =>
          simp only [resolveFrom, hd] at hp hq
          cases hp
          simp only [List.get?, resolveFrom, hdisc] at hq
          cases hq
          rfl
    | succ j =>
      cases hd : w.discriminant with
      | none =>
        simp only [resolveFrom, hd, List.get?] at hp hq
        exact ih _ j hv hp hq
      | some e =>
        simp only [resolveFrom, hd, List.get?] at hp hq
        exact ih _ j hv hp hq

theorem reprStep_eq (r : Option String) (a : Attribute) :
    reprStep r a = match reprStep none a with
      | some t => some t
      | none => r := by
  unfold reprStep
  cases hm : a.parse_meta with
  | none => rfl
  | some m =>
    cases m with
    | word i => rfl
    | nameValue i l => rfl
    | list i ns =>
      by_cases hi : (i == "repr") = true
      · simp only [hi, if_true]
        cases hh : ns.head? with
        | none => rfl
        | some n =>
          cases n with
          | literal l => rfl
          | meta mm =>
            cases mm with
            | word w =>
              by_cases hw : isRecognizedTag w = true
              · simp only [hw, if_true]
              · simp only [Bool.not_eq_true] at hw
                simp only [hw, Bool.false_eq_true, if_false]
            | list i2 ns2 => rfl
            | nameValue i2 l2 => rfl
      · simp only [Bool.not_eq_true] at hi
        simp only [hi, Bool.false_eq_true, if_false]

theorem reprStep_of_recognized (r : Option String) (a : Attribute) (t : String)
    (h : reprStep none a = some t) : reprStep r a = some t := by
  rw [reprStep_eq, h]

theorem reprStep_of_unrecognized (r : Option String) (a : Attribute)
    (h : reprStep none a = none) : reprStep r a = r := by
  rw [reprStep_eq, h]

theorem foldl_reprStep_unrecognized (attrs : List Attribute) (r : Option String)
    (h : ∀ a ∈ attrs, reprStep none a = none) :
    attrs.foldl reprStep r = r := by
  induction attrs generalizing r with
  | nil => rfl
  | cons a rest ih =>
    rw [List.foldl_cons, reprStep_of_unrecognized r a (h a (List.mem_cons_self _ _))]
    exact ih r fun b hb => h b (List.mem_cons_of_mem _ hb)

theorem validateShapes_first_offender (pre suf : List Variant) (v : Variant)
    (hpre : ∀ u ∈ pre, u.fields = Fields.unit) (hv : v.fields ≠ Fields.unit) :
    validateShapes (pre ++ v :: suf)
      = some ⟨v.ident, "enumn: variant with data is not supported"⟩ := by
  induction pre with
  | nil =>
    cases hf : v.fields with
    | unit => exact absurd hf hv
    | named => simp [validateShapes, hf]
    | unnamed => simp [validateShapes, hf]
  | cons u rest ih =>
    have hu : u.fields = Fields.unit := hpre u (List.mem_cons_self _ _)
    simp only [List.cons_append, validateShapes, hu]
    exact ih fun w hw => hpre w (List.mem_cons_of_mem _ hw)

/-! ### Claims -/

/-- Claim C1: for every enum passing shape validation, the generated
function `n` is total: every declared discriminant `d` of variant `V`
satisfies `n d = some V`, every value equal to no declared discriminant
satisfies `n value = none`, and (the discriminants being pairwise distinct,
as the host compiler enforces) no input matches two variants. -/
theorem C1_generated_function_total (variants : List Variant)
    (huniq : ((resolveDiscriminants variants).map Prod.snd).Nodup) :
    (∀ (name : String) (d : Int), (name, d) ∈ resolveDiscriminants variants →
      generatedN variants d = some name)
    ∧ ∀ value : Int, value ∉ (resolveDiscriminants variants).map Prod.snd →
        generatedN variants value = none := by
  constructor
  · intro name d hmem
    exact findMatch_of_mem _ name d huniq hmem
  · intro value hval
    refine findMatch_eq_none _ _ fun p hp h => hval ?_
    rw [← h]
    exact List.mem_map_of_mem Prod.snd hp

theorem C1_witness :
    ((((resolveDiscriminants letterVariants).map Prod.snd).Nodup : Prop)
      ∧ generatedN letterVariants 66 = some "B")
    ∧ generatedN letterVariants 5 = none := by
  have h := C1_generated_function_total letterVariants (by decide)
  exact ⟨⟨by decide, h.1 "B" 66 (by decide)⟩, h.2 5 (by decide)⟩

/-- Claim C2: resolved discriminants follow the host language's sequential
rule — a first variant with no explicit discriminant resolves to 0, a
variant with an explicit discriminant resolves to it, and a later variant
with no explicit discriminant resolves to one more than its predecessor's
resolved value (which also captures the restart after an explicit value).
The concrete scenario `A, B = 66, C` resolves to 0, 66, 67 with
`n 0 = some A`, `n 66 = some B`, `n 67 = some C`, `n 5 = none`, and the
generated signature is the generic convertible-integer form. -/
theorem C2_sequential_discriminant_rule :
    (∀ (v : Variant) (rest : List Variant), v.discriminant = none →
      (resolveDiscriminants (v :: rest)).get? 0 = some (v.ident, 0))
    ∧ (∀ (variants : List Variant) (i : ℕ) (v : Variant) (e : Int),
        variants.get? i = some v → v.discriminant = some e →
        (resolveDiscriminants variants).get? i = some (v.ident, e))
    ∧ (∀ (variants : List Variant) (i : ℕ) (v : Variant) (p q : String × Int),
        variants.get? (i + 1) = some v → v.discriminant = none →
        (resolveDiscriminants variants).get? i = some p →
        (resolveDiscriminants variants).get? (i + 1) = some q →
        q.2 = p.2 + 1)
    ∧ resolveDiscriminants letterVariants = [("A", 0), ("B", 66), ("C", 67)]
    ∧ generatedN letterVariants 0 = some "A"
    ∧ generatedN letterVariants 66 = some "B"
    ∧ generatedN letterVariants 67 = some "C"
    ∧ generatedN letterVariants 5 = none
    ∧ derive letterInput = DeriveOutput.tokens
        ⟨"Letter", Signature.generic, ValueExpr.intoI64, "i64", ["A", "B", "C"]⟩ := by
  refine ⟨?_, ?_, ?_, by decide, by decide, by decide, by decide, by decide, by decide⟩
  · intro v rest h
    simp [resolveDiscriminants, resolveFrom, h]
  · intro variants i v e hv hd
    exact resolveFrom_get?_explicit variants 0 i v e hv hd
  · intro variants i v p q hv hd hp hq
    exact resolveFrom_get?_none_succ variants 0 i v p q hv hd hp hq

theorem C2_witness :
    (resolveDiscriminants letterVariants).get? 0 = some ("A", 0)
    ∧ (resolveDiscriminants letterVariants).get? 1 = some ("B", 66)
    ∧ ((("C", 67) : String × Int)).2 = ((("B", 66) : String × Int)).2 + 1 := by
  have h := C2_sequential_discriminant_rule
  refine ⟨h.1 ⟨"A", Fields.unit, none⟩ [⟨"B", Fields.unit, some 66⟩, ⟨"C", Fields.unit, none⟩] rfl,
    h.2.1 letterVariants 1 ⟨"B", Fields.unit, some 66⟩ 66 rfl rfl,
    h.2.2.1 letterVariants 1 ⟨"C", Fields.unit, none⟩ ("B", 66) ("C", 67) rfl rfl (by decide)
      (by decide)⟩

/-- Claim C3: whenever some variant has a non-unit field shape, `derive`
stops at the first such variant and its whole output is the compile error
anchored at that variant's ident with the fixed message; no generated
function is produced at all. -/
theorem C3_shape_error_all_or_nothing (input : DeriveInput)
    (variants pre suf : List Variant) (v : Variant)
    (hdata : input.data = Data.enum variants)
    (hsplit : variants = pre ++ v :: suf)
    (hpre : ∀ u ∈ pre, u.fields = Fields.unit)
    (hv : v.fields ≠ Fields.unit) :
    derive input = DeriveOutput.compileError
      ⟨v.ident, "enumn: variant with data is not supported"⟩
    ∧ ∀ f, derive input ≠ DeriveOutput.tokens f := by
  obtain ⟨id, attrs, data⟩ := input
  simp only at hdata
  subst hdata
  subst hsplit
  have hval := validateShapes_first_offender pre suf v hpre hv
  have hout : derive ⟨id, attrs, Data.enum (pre ++ v :: suf)⟩
      = DeriveOutput.compileError
        ⟨v.ident, "enumn: variant with data is not supported"⟩ := by
    simp [derive, hval]
  exact ⟨hout, fun f hc => by rw [hout] at hc; cases hc⟩

theorem C3_witness :
    derive ⟨"E", [],
        Data.enum [⟨"A", Fields.unit, none⟩, ⟨"B", Fields.named, none⟩,
          ⟨"C", Fields.unnamed, none⟩]⟩
      = DeriveOutput.compileError ⟨"B", "enumn: variant with data is not supported"⟩ :=
  (C3_shape_error_all_or_nothing
    ⟨"E", [], Data.enum [⟨"A", Fields.unit, none⟩, ⟨"B", Fields.named, none⟩,
      ⟨"C", Fields.unnamed, none⟩]⟩
    [⟨"A", Fields.unit, none⟩, ⟨"B", Fields.named, none⟩, ⟨"C", Fields.unnamed, none⟩]
    [⟨"A", Fields.unit, none⟩] [⟨"C", Fields.unnamed, none⟩] ⟨"B", Fields.named, none⟩
    rfl rfl (by decide) (by decide)).1

/-- Claim C4: with a recognized repr annotation the generated function takes
exactly that repr as its parameter type and matches the value directly;
without one it is the generic `n<REPR: Into<i64>>` form whose body first
converts the value into `i64`. -/
theorem C4_signature_modes (input : DeriveInput) (variants : List Variant)
    (hdata : input.data = Data.enum variants)
    (hshape : validateShapes variants = none) :
    (∀ r, resolveRepr input.attrs = some r →
      derive input = DeriveOutput.tokens
        ⟨input.ident, Signature.fixed r, ValueExpr.direct, r, variants.map Variant.ident⟩)
    ∧ (resolveRepr input.attrs = none →
      derive input = DeriveOutput.tokens
        ⟨input.ident, Signature.generic, ValueExpr.intoI64, "i64",
          variants.map Variant.ident⟩) := by
  obtain ⟨id, attrs, data⟩ := input
  simp only at hdata
  subst hdata
  constructor
  · intro r hr
    simp [derive, hshape, hr]
  · intro hr
    simp [derive, hshape, hr]

theorem C4_witness :
    derive ⟨"E", [reprU8Attr], Data.enum letterVariants⟩
      = DeriveOutput.tokens ⟨"E", Signature.fixed "(u8)", ValueExpr.direct, "(u8)",
          ["A", "B", "C"]⟩
    ∧ derive letterInput
      = DeriveOutput.tokens ⟨"Letter", Signature.generic, ValueExpr.intoI64, "i64",
          ["A", "B", "C"]⟩ :=
  ⟨(C4_signature_modes ⟨"E", [reprU8Attr], Data.enum letterVariants⟩ letterVariants rfl
      (by decide)).1 "(u8)" (by decide),
    (C4_signature_modes letterInput letterVariants rfl (by decide)).2 (by decide)⟩

/-- Claim C5 counterexample: with both `#[repr(u8)]` and `#[repr(u16)]`
present (in that order), the scanning loop keeps overwriting its result, so
the generator uses `(u16)` — the last recognized annotation — not the first
one `(u8)` as the claim states. -/
theorem C5_counterexample :
    derive ⟨"E", [reprU8Attr, reprU16Attr], Data.enum letterVariants⟩
      = DeriveOutput.tokens ⟨"E", Signature.fixed "(u16)", ValueExpr.direct, "(u16)",
          ["A", "B", "C"]⟩
    ∧ resolveRepr [reprU8Attr, reprU16Attr] = some "(u16)"
    ∧ resolveRepr [reprU8Attr, reprU16Attr] ≠ some "(u8)" := by
  exact ⟨rfl, rfl, by decide⟩

/-- Claim C5 (amended): when a declaration carries more than one recognized
representation annotation, the LAST recognized match determines the
representation used: whatever comes before it, a recognized annotation `b`
followed only by unrecognized attributes decides the result. -/
theorem C5_last_recognized_match_wins (pre mid post : List Attribute)
    (a b : Attribute) (t u : String)
    (_ha : reprStep none a = some t) (hb : reprStep none b = some u)
    (hpost : ∀ c ∈ post, reprStep none c = none) :
    resolveRepr (pre ++ a :: (mid ++ b :: post)) = some u := by
  have hre : pre ++ a :: (mid ++ b :: post) = (pre ++ a :: mid) ++ b :: post := by
    simp
  rw [resolveRepr, hre, List.foldl_append, List.foldl_cons,
    reprStep_of_recognized _ b u hb]
  exact foldl_reprStep_unrecognized post (some u) hpost

theorem C5_witness : resolveRepr [reprU8Attr, reprU16Attr] = some "(u16)" := by
  have h := C5_last_recognized_match_wins [] [] [] reprU8Attr reprU16Attr "(u8)" "(u16)"
    (by decide) (by decide) (fun c hc => absurd hc (List.not_mem_nil c))
  exact h

/-- Claim C6 counterexample: the recognized vocabulary has twelve distinct
tags, not ten as the claim states. -/
theorem C6_counterexample :
    recognizedTags.Nodup ∧ recognizedTags.length = 12 ∧ recognizedTags.length ≠ 10
    ∧ ∀ s ∈ recognizedTags, isRecognizedTag s = true := by decide

/-- Claim C6 (amended): the recognized vocabulary is exactly the twelve
fixed width/signedness tags `u8 u16 u32 u64 u128 usize i8 i16 i32 i64 i128
isize`; an annotation whose tag is outside this set, or any unrecognized
annotation, is silently ignored, and a declaration with only such
annotations gets the generic mode. -/
theorem C6_recognized_vocabulary :
    (∀ s : String, isRecognizedTag s = true ↔ s ∈ recognizedTags)
    ∧ recognizedTags.length = 12
    ∧ (∀ attrs : List Attribute, (∀ a ∈ attrs, reprStep none a = none) →
        resolveRepr attrs = none)
    ∧ (∀ (input : DeriveInput) (variants : List Variant),
        input.data = Data.enum variants → validateShapes variants = none →
        (∀ a ∈ input.attrs, reprStep none a = none) →
        derive input = DeriveOutput.tokens
          ⟨input.ident, Signature.generic, ValueExpr.intoI64, "i64",
            variants.map Variant.ident⟩) := by
  refine ⟨?_, rfl, ?_, ?_⟩
  · intro s
    simp only [isRecognizedTag, recognizedTags, Bool.or_eq_true, beq_iff_eq,
      List.mem_cons, List.not_mem_nil, or_false]
    tauto
  · intro attrs h
    exact foldl_reprStep_unrecognized attrs none h
  · intro input variants hdata hshape hattrs
    obtain ⟨id, attrs, data⟩ := input
    simp only at hdata hattrs ⊢
    subst hdata
    simp [derive, hshape, resolveRepr, foldl_reprStep_unrecognized attrs none hattrs]

theorem C6_witness :
    isRecognizedTag "i128" = true
    ∧ resolveRepr [reprCU8Attr] = none := by
  have h := C6_recognized_vocabulary
  refine ⟨(h.1 "i128").mpr (by decide), h.2.2.1 [reprCU8Attr] ?_⟩
  intro a ha
  rw [List.mem_singleton] at ha
  subst ha
  rfl

/-- Claim C7: a non-enum input (struct or union) makes the whole generation
process panic with a fixed message — an abnormal termination, not a
location-bound diagnostic and not generated tokens. -/
theorem C7_non_enum_panics (input : DeriveInput)
    (h : input.data = Data.struct ∨ input.data = Data.union) :
    derive input = DeriveOutput.panicked "input must be an enum"
    ∧ (∀ d, derive input ≠ DeriveOutput.compileError d)
    ∧ (∀ f, derive input ≠ DeriveOutput.tokens f) := by
  obtain ⟨id, attrs, data⟩ := input
  simp only at h
  have hout : derive ⟨id, attrs, data⟩ = DeriveOutput.panicked "input must be an enum" := by
    rcases h with h | h <;> (subst h; rfl)
  refine ⟨hout, fun d hc => ?_, fun f hc => ?_⟩
  · rw [hout] at hc
    cases hc
  · rw [hout] at hc
    cases hc

theorem C7_witness :
    derive ⟨"S", [], Data.struct⟩ = DeriveOutput.panicked "input must be an enum" :=
  (C7_non_enum_panics ⟨"S", [], Data.struct⟩ (Or.inl rfl)).1

/-- Claim C8: the generator is deterministic — `derive` is a pure function
of its input, so identical inputs always produce identical outputs. -/
theorem C8_deterministic (i j : DeriveInput) (h : i = j) : derive i = derive j :=
  congrArg derive h

theorem C8_witness : derive letterInput = derive letterInput :=
  C8_deterministic letterInput letterInput rfl

/-- Claim C9: an enum with zero variants generates successfully, the
generated fragment has no match arms, and the generated function returns
`none` on every input (only the catch-all arm remains). -/
theorem C9_empty_enum (input : DeriveInput) (hdata : input.data = Data.enum []) :
    (∃ f, derive input = DeriveOutput.tokens f ∧ f.variantIdents = [])
    ∧ ∀ value : Int, generatedN [] value = none := by
  obtain ⟨id, attrs, data⟩ := input
  simp only at hdata
  subst hdata
  refine ⟨?_, fun value => rfl⟩
  cases hr : resolveRepr attrs with
  | some r =>
    refine ⟨⟨id, Signature.fixed r, ValueExpr.direct, r, []⟩, ?_, rfl⟩
    simp [derive, validateShapes, hr]
  | none =>
    refine ⟨⟨id, Signature.generic, ValueExpr.intoI64, "i64", []⟩, ?_, rfl⟩
    simp [derive, validateShapes, hr]

theorem C9_witness :
    (∃ f, derive ⟨"Zero", [], Data.enum []⟩ = DeriveOutput.tokens f ∧ f.variantIdents = [])
    ∧ generatedN [] 0 = none := by
  have h := C9_empty_enum ⟨"Zero", [], Data.enum []⟩ rfl
  exact ⟨h.1, h.2 0⟩

/-- Claim C10: only the first payload element of a repr annotation is
inspected — if it is not a recognized width word, the annotation is ignored
(it leaves the scan state unchanged) even when a recognized tag appears
later in the same payload, as in `#[repr(C, u8)]`, which yields the generic
mode. -/
theorem C10_only_first_payload_item (r : Option String) (a : Attribute)
    (i : String) (ns : List NestedMeta)
    (hmeta : a.parse_meta = some (Meta.list i ns))
    (hfirst : ∀ w, ns.head? = some (NestedMeta.meta (Meta.word w)) →
      isRecognizedTag w = false) :
    reprStep r a = r ∧ resolveRepr [reprCU8Attr] = none := by
  refine ⟨?_, rfl⟩
  unfold reprStep
  rw [hmeta]
  by_cases hi : (i == "repr") = true
  · simp only [hi, if_true]
    cases hh : ns.head? with
    | none => rfl
    | some n =>
      cases n with
      | literal l => rfl
      | meta mm =>
        cases mm with
        | word w =>
          simp [hfirst w hh]
        | list i2 ns2 => rfl
        | nameValue i2 l2 => rfl
  · simp only [Bool.not_eq_true] at hi
    simp only [hi, Bool.false_eq_true, if_false]

theorem C10_witness :
    reprStep none reprCU8Attr = none ∧ resolveRepr [reprCU8Attr] = none :=
  C10_only_first_payload_item none reprCU8Attr "repr"
    [NestedMeta.meta (Meta.word "C"), NestedMeta.meta (Meta.word "u8")] rfl
    (fun w hw => by cases hw; rfl)

end Enumn
